import Mathlib

set_option maxHeartbeats 1000000

/-!
Verification of the `pie-modules` repository: a shallow embedding of the
offset-mapping functions (`pie_modules/document/processing/tokenization.py`)
and of the pointer-network taskmodule
(`pie_modules/taskmodules/pointer_network_taskmodule_for_end2end_re.py`),
with theorems settling the behavioural claims about them.
-/

namespace PM

/-! ## Data model: spans and multi-spans

`Span` is a half-open interval with a label; `MultiSpan` is a list of slices
sharing one label.  `Ann` is the closed union over which
`char_span_to_token_span` / `token_span_to_char_span` dispatch (the Python
code dispatches on `isinstance` and rejects anything else with a
`TypeError`, so the closed union is faithful).
-/

structure Span where
  start : Nat
  «end» : Nat
  label : String
deriving DecidableEq, Repr

structure MultiSpan where
  slices : List (Nat × Nat)
  label : String
deriving DecidableEq, Repr

inductive Ann where
  | span (s : Span)
  | multi (m : MultiSpan)
deriving DecidableEq, Repr

/-! ## `find_token_offset_mapping` (tokenization.py, lines 32-55)

Python's `text.find(token, start)` returns the smallest position `p ≥ start`
at which `token` occurs in `text` (`-1`, i.e. `none` here, when there is no
such position).  Texts are modelled as `List Char`.
-/

/-- `matchAt tok rest` is true when `tok` is an initial segment of `rest`
(the occurrence test used by `text.find`). -/
def matchAt : List Char → List Char → Bool
  | [], _ => true
  | _ :: _, [] => false
  | a :: tok, b :: rest => a == b && matchAt tok rest

/-- Search positions `start, start+1, ...` up to the end of `text` for an
occurrence of `tok`; `fuel` bounds the number of positions still to try. -/
def strFindAux (text tok : List Char) : Nat → Nat → Option Nat
  | _, 0 => none
  | p, fuel + 1 => if matchAt tok (text.drop p) then some p else strFindAux text tok (p + 1) fuel

/-- Embedding of Python's `text.find(token, start)` (as an `Option`). -/
def strFind (text tok : List Char) (start : Nat) : Option Nat :=
  if start ≤ text.length then strFindAux text tok start (text.length + 1 - start) else none

/-- The loop of `find_token_offset_mapping`: for each token, find its first
occurrence at or after the cursor `start`; found tokens get `(p, p+len)` and
move the cursor to `p+len`, unfound tokens get the degenerate `(start, start)`
and leave the cursor where it is. -/
def find_token_offset_mapping_go (text : List Char) : Nat → List (List Char) → List (Nat × Nat)
  | _, [] => []
  | start, tok :: toks =>
    match strFind text tok start with
    | none => (start, start) :: find_token_offset_mapping_go text start toks
    | some p => (p, p + tok.length) :: find_token_offset_mapping_go text (p + tok.length) toks

/-- Embedding of `find_token_offset_mapping(text, tokens)`. -/
def find_token_offset_mapping (text : String) (tokens : List String) : List (Nat × Nat) :=
  find_token_offset_mapping_go text.data 0 (tokens.map String.data)

/-- `tok` occurs in `text` at position `p` (Python `text.find` can report an
occurrence at any `p ≤ len(text)`; for nonempty `tok` the bound is implied). -/
def occursAt (text tok : List Char) (p : Nat) : Prop :=
  p ≤ text.length ∧ matchAt tok (text.drop p) = true

instance (text tok : List Char) (p : Nat) : Decidable (occursAt text tok p) := by
  unfold occursAt; infer_instance

/-! ## `char_span_to_token_span` / `token_span_to_char_span`
(tokenization.py, lines 58-102) -/

/-- Embedding of `char_span_to_token_span(span, char_to_token)`: a simple span
succeeds iff both its start character and its inclusive last character are
mapped; a multi span maps each slice the same way and fails as a whole if any
slice fails. -/
def char_span_to_token_span (a : Ann) (char_to_token : Nat → Option Nat) : Option Ann :=
  match a with
  | .span s =>
    match char_to_token s.start, char_to_token (s.«end» - 1) with
    | some startTok, some endTokInclusive => some (.span ⟨startTok, endTokInclusive + 1, s.label⟩)
    | _, _ => none
  | .multi m =>
    let slicesInclusiveEnd := m.slices.map fun q => (char_to_token q.1, char_to_token (q.2 - 1))
    if slicesInclusiveEnd.any fun q => q.1.isNone || q.2.isNone then none
    else
      some (.multi ⟨slicesInclusiveEnd.map fun q => (q.1.getD 0, q.2.getD 0 + 1), m.label⟩)

/-- Embedding of `token_span_to_char_span(span, token_offset_mapping)`.  The
Python function indexes the offset mapping directly and raises `IndexError`
on an out-of-range token index; that raise is modelled as `none`. -/
def token_span_to_char_span (a : Ann) (m : List (Nat × Nat)) : Option Ann :=
  match a with
  | .span s => do
    let p1 ← m.get? s.start
    let p2 ← m.get? (s.«end» - 1)
    some (.span ⟨p1.1, p2.2, s.label⟩)
  | .multi ms => do
    let slices ← ms.slices.mapM fun q => do
      let p1 ← m.get? q.1
      let p2 ← m.get? (q.2 - 1)
      pure (p1.1, p2.2)
    some (.multi ⟨slices, ms.label⟩)

/-- The `char_to_token` lookup derived from a token offset mapping
(tokenization.py, lines 181-187): the dict maps every character inside a
token's range to that token's index, with later tokens overwriting earlier
ones, hence the lookup returns the index of the last token whose character
range contains `c`. -/
def char_to_token_from_mapping (m : List (Nat × Nat)) (c : Nat) : Option Nat :=
  (m.enum.reverse.find? fun q => decide (q.2.1 ≤ c) && decide (c < q.2.2)).map (·.1)

/-! ## Pointer-network target vocabulary

A prepared `PointerNetworkTaskModuleForEnd2EndRE` exposes the derived id
tables set up in `_post_prepare` (`eos_id`, `none_id`, `span_ids`,
`relation_ids`, `pointer_offset = len(targets)`) plus `target_pad_id`.
A `Vocab` packages exactly those fields.
-/

structure Vocab where
  eosId : Nat
  noneId : Nat
  targetPadId : Nat
  spanIds : List Nat
  relationIds : List Nat
  pointerOffset : Nat
deriving DecidableEq, Repr

/-- The vocabulary of the test fixture: `targets =
["<s>", "</s>", "none", "content", "person", "topic", "is_about"]`. -/
def fixtureVocab : Vocab :=
  { eosId := 1, noneId := 2, targetPadId := 1
    spanIds := [3, 4, 5], relationIds := [6], pointerOffset := 7 }

/-! ## Per-tuple relation decoding (spec-modelled)

The per-tuple decoder `BinaryRelationEncoderDecoder.decode` lives in
`pie_modules/taskmodules/pointer_network/annotation_encoder_decoder.py`,
which is not among the sources here; it is modelled from the spec below.
-/

/-- A labeled span in token coordinates, with the label kept as a target id. -/
structure LSpan where
  start : Nat
  «end» : Nat
  label : Nat
deriving DecidableEq, Repr

/-- A decoded binary relation; `label = none` encodes the loop dummy relation
that represents a span without a relation partner. -/
structure DecodedRelation where
  head : LSpan
  tail : LSpan
  label : Option Nat
deriving DecidableEq, Repr

/-- Modelled from the spec: `decodeSpan(ids)` inverts
`encodeSpan(span) = (pointer_offset + start, pointer_offset + end - 1, label_id)`
and "fails with a decoding error if label id is out of the expected label set,
or if `end < start`" (spec section 4.3); an id below `pointer_offset` in a
pointer slot is likewise an inverted/invalid span.  Error kinds follow the
closed enum suggested by spec section 9 (unknown label / inverted span). -/
def decodeSpanIds (cfg : Vocab) (s e lab : Nat) : Except String LSpan :=
  if lab ∈ cfg.spanIds then
    if s < cfg.pointerOffset ∨ e < s then .error "order"
    else .ok ⟨s - cfg.pointerOffset, e - cfg.pointerOffset + 1, lab⟩
  else .error "label"

/-- Modelled from the spec: `decodeRelation` splits a completed tuple in the
fixed 7-slot order `(tail_start, tail_end, tail_label, head_start, head_end,
head_label, relation_label)` (spec section 4.3); a tuple whose last four slots
are the `none` sentinel decodes a single span as a loop relation
(`head == tail`); a tuple of any other shape is a wrong-arity error
(spec section 7: "wrong tuple shape"). -/
def decodeRelation (cfg : Vocab) (ids : List Nat) : Except String DecodedRelation :=
  match ids with
  | [ts, te, tl, hs, he, hl, rl] =>
    if hs = cfg.noneId ∧ he = cfg.noneId ∧ hl = cfg.noneId ∧ rl = cfg.noneId then
      (decodeSpanIds cfg ts te tl).map fun sp => ⟨sp, sp, none⟩
    else
      match decodeSpanIds cfg ts te tl, decodeSpanIds cfg hs he hl with
      | .ok tailSpan, .ok headSpan =>
        if rl ∈ cfg.relationIds then .ok ⟨headSpan, tailSpan, some rl⟩ else .error "label"
      | .error e, _ => .error e
      | .ok _, .error e => .error e
  | _ => .error "len"

/-! ## `decode_relations` (taskmodule, lines 410-436) -/

/-- The tuple-completion test of `decode_relations`: the tuple `cur`
(the accumulator with `i` already appended) is complete when `i` is a known
relation-label id, or `i` is the none id and the accumulator has reached
length 7. -/
def tupleComplete (cfg : Vocab) (cur : List Nat) (i : Nat) : Prop :=
  i ∈ cfg.relationIds ∨ (i = cfg.noneId ∧ cur.length = 7)

instance (cfg : Vocab) (cur : List Nat) (i : Nat) : Decidable (tupleComplete cfg cur i) := by
  unfold tupleComplete; infer_instance

/-- The outcome identifier recorded in the error-count dictionary of
`decode_relations`: `KEY_INVALID_CORRECT = "correct"` on success, the
`DecodingException` identifier otherwise. -/
def decodeOutcome (cfg : Vocab) (t : List Nat) : String :=
  match decodeRelation cfg t with
  | .ok _ => "correct"
  | .error e => e

/-- One iteration of the loop body of `decode_relations`: append `i` to the
accumulator; if the tuple is complete, attempt to decode it (appending the
relation on success, recording the error identifier on failure) and reset
the accumulator. -/
def decodeRelationsStep (cfg : Vocab) :
    List DecodedRelation × List String × List Nat → Nat →
      List DecodedRelation × List String × List Nat
  | (encodings, errs, cur), i =>
    if tupleComplete cfg (cur ++ [i]) i then
      match decodeRelation cfg (cur ++ [i]) with
      | .ok r => (encodings ++ [r], errs ++ ["correct"], [])
      | .error e => (encodings, errs ++ [e], [])
    else (encodings, errs, cur ++ [i])

/-- Embedding of `decode_relations(label_ids)`: returns the decoded
relations, the trace of outcome identifiers (the source's error-count
dictionary is the multiset of this trace), and the leftover accumulator. -/
def decode_relations (cfg : Vocab) (labelIds : List Nat) :
    List DecodedRelation × List String × List Nat :=
  labelIds.foldl (decodeRelationsStep cfg) ([], [], [])

/-- Splitting an id stream into its completed tuples and the leftover suffix,
with the same completion rule as `decode_relations` but independent of any
decoding. -/
def splitTuplesGo (cfg : Vocab) : List Nat → List Nat → List (List Nat) × List Nat
  | acc, [] => ([], acc)
  | acc, i :: rest =>
    if tupleComplete cfg (acc ++ [i]) i then
      ((acc ++ [i]) :: (splitTuplesGo cfg [] rest).1, (splitTuplesGo cfg [] rest).2)
    else splitTuplesGo cfg (acc ++ [i]) rest

/-- The completed tuples of an id stream together with the leftover ids after
the last completed tuple. -/
def splitTuples (cfg : Vocab) (ids : List Nat) : List (List Nat) × List Nat :=
  splitTuplesGo cfg [] ids

/-! ## `_build_constraint` (taskmodule, lines 562-629)

The Python function fills a zero tensor of size `input_len + pointer_offset`
by a sequence of slice/index assignments, later assignments overwriting
earlier ones.  `buildConstraintFn` gives the final value at index `j` by
reading those assignment sequences backwards (an `if` closer to the top
corresponds to a later assignment). -/

def buildConstraintFn (cfg : Vocab) (previousIds : List Nat) (j : Nat) : Nat :=
  if cfg.eosId ∈ previousIds then
    -- once eos is predicted, only allow padding
    if j = cfg.targetPadId then 1 else 0
  else if previousIds.length = 0 then
    -- first span start or eos
    if cfg.pointerOffset ≤ j ∨ j = cfg.eosId then 1 else 0
  else if previousIds.length = 1 then
    -- first span end: all offsets at or after the span start
    if previousIds.getLastD 0 ≤ j then 1 else 0
  else if previousIds.length = 2 then
    -- first span label
    if j ∈ cfg.spanIds then 1 else 0
  else if previousIds.length = 3 then
    -- second span start or none, minus the range covered by the first span
    if previousIds.getD 0 0 ≤ j ∧ j < previousIds.getD 1 0 + 1 then 0
    else if cfg.pointerOffset ≤ j ∨ j = cfg.noneId then 1
    else 0
  else if previousIds.length = 4 then
    -- second span end or none
    if cfg.noneId ∈ previousIds then
      if j = cfg.noneId then 1 else 0
    else
      if previousIds.getLastD 0 < previousIds.getD 0 0 ∧ previousIds.getD 1 0 + 1 ≤ j then 0
      else if previousIds.getD 0 0 ≤ j ∧ j < previousIds.getD 1 0 + 1 then 0
      else if previousIds.getLastD 0 ≤ j then 1
      else 0
  else if previousIds.length = 5 then
    -- second span label or none
    if cfg.noneId ∈ previousIds then
      if j = cfg.noneId then 1 else 0
    else if j ∈ cfg.spanIds then 1
    else 0
  else if previousIds.length = 6 then
    -- relation label or none
    if cfg.noneId ∈ previousIds then
      if j = cfg.noneId then 1 else 0
    else if j ∈ cfg.relationIds then 1
    else 0
  else
    -- any longer sequence can only be completed with padding
    if j = cfg.targetPadId then 1 else 0

/-- Embedding of `_build_constraint(previous_ids, input_len)`: the boolean
mask over the `input_len + pointer_offset` target ids. -/
def _build_constraint (cfg : Vocab) (previousIds : List Nat) (inputLen : Nat) : List Nat :=
  (List.range (inputLen + cfg.pointerOffset)).map (buildConstraintFn cfg previousIds)

/-! ## `build_constraints` (taskmodule, lines 631-683) -/

/-- `mapM` for `Except`, written as the plain recursion the Python `for` loop
performs (append on success, propagate the first raise). -/
def mapME {α β ε : Type} (f : α → Except ε β) : List α → Except ε (List β)
  | [] => .ok []
  | a :: as =>
    match f a with
    | .error e => .error e
    | .ok b =>
      match mapME f as with
      | .error e => .error e
      | .ok bs => .ok (b :: bs)

/-- One iteration of the loop of `build_constraints` at position `idx`:
compute the constraint row from the same-tuple prefix
`target_ids[(idx // 7) * 7 : idx]`, raise when the actually chosen id
`target_ids[idx]` is out of range of the row (torch `IndexError`) or
disallowed by it (self-consistency check), return the row otherwise. -/
def buildConstraintsEntry (cfg : Vocab) (inputLen : Nat) (targetIds : List Nat) (idx : Nat) :
    Except String (List Nat) :=
  match (_build_constraint cfg ((targetIds.take idx).drop (idx / 7 * 7)) inputLen).get?
      (targetIds.getD idx 0) with
  | none => Except.error "index out of bounds"
  | some v =>
    if v = 0 then Except.error "self-consistency violated"
    else Except.ok (_build_constraint cfg ((targetIds.take idx).drop (idx / 7 * 7)) inputLen)

/-- The final constraint row appended for the end-of-sequence position:
all zeros except a 1 at the eos id. -/
def eosConstraintRow (cfg : Vocab) (inputLen : Nat) : List Nat :=
  (List.range (inputLen + cfg.pointerOffset)).map fun j => if j = cfg.eosId then 1 else 0

/-- Embedding of `build_constraints(input_len, target_ids)`.  Raises
(`Except.error`) when `target_ids` is empty or does not end with the eos id,
when the length minus the terminator is not a multiple of 7, or when the
per-position check of `buildConstraintsEntry` fails. -/
def build_constraints (cfg : Vocab) (inputLen : Nat) (targetIds : List Nat) :
    Except String (List (List Nat)) :=
  match targetIds.getLast? with
  | none => .error "index error: empty target_ids"
  | some last =>
    if last ≠ cfg.eosId then .error "expected eos_id at the end of target_ids"
    else if (targetIds.length - 1) % 7 ≠ 0 then
      .error "expected the number of labels_without_eos to be a multiple of 7"
    else
      match mapME (buildConstraintsEntry cfg inputLen targetIds)
          (List.range (targetIds.length - 1)) with
      | .error e => .error e
      | .ok rows => .ok (rows ++ [eosConstraintRow cfg inputLen])

/-! ## Target vocabulary construction (taskmodule, lines 213-222 and 280-306)

`special_targets = [bos_token, eos_token]`; `targets = special_targets +
labels`; the id dictionaries are Python dict comprehensions over
`enumerate(...)`, so when a string occurs twice the LAST index wins.
`target_pad_id = special_target2id[eos_token]` and
`eos_id = target2id[eos_token]`. -/

/-- The index a Python dict comprehension `{s: i for i, s in enumerate(l)}`
assigns to `s`: the last index of `s` in `l` (`none` when absent, modelling
the `KeyError`). -/
def dictIndexOf (l : List String) (s : String) : Option Nat :=
  (l.enum.reverse.find? fun q => q.2 == s).map (·.1)

/-- `special_targets` (taskmodule, line 213). -/
def special_targets (bos eos : String) : List String := [bos, eos]

/-- `targets` as assembled in `_post_prepare` (line 291). -/
def targetsList (bos eos : String) (labels : List String) : List String :=
  special_targets bos eos ++ labels

/-- `target_pad_id` (line 221): the index of the eos token among the special
targets. -/
def target_pad_id (bos eos : String) : Option Nat :=
  dictIndexOf (special_targets bos eos) eos

/-- `eos_id` (line 295): the index of the eos token in the full target
vocabulary. -/
def eos_id_of (bos eos : String) (labels : List String) : Option Nat :=
  dictIndexOf (targetsList bos eos labels) eos

/-- `pad_values["labels"]` (line 185): batched label sequences are padded
with `target_pad_id`. -/
def labels_pad_value (bos eos : String) : Option Nat := target_pad_id bos eos

/-! ## Final coverage check of `tokenize_document`
(tokenization.py, lines 386-417)

The per-partition loop of `tokenize_document` is driven by the external
tokenizer; its observable outcome is the list of produced token documents
and, for every annotation layer, the source annotations carried over into at
least one of them (`added_annotations`).  The embedding takes that outcome
and performs the final missed-annotation bookkeeping exactly as the source
does.  Annotations are abstracted to `Nat` ids; a raised `ValueError` is
`Except.error` carrying the per-layer report; the warning log is returned
alongside the produced documents. -/

/-- The per-layer report of missed annotations: for every layer of the result
document type other than the partition layer, the (deduplicated) source
annotations of that layer that were not carried over. -/
def missed_annotations (layers : List String) (partitionLayer : Option String)
    (docAnns addedAnns : String → List Nat) : List (String × List Nat) :=
  (layers.filter fun l => partitionLayer ≠ some l).filterMap fun l =>
    let m := ((docAnns l).filter fun a => a ∉ addedAnns l).dedup
    if m = [] then none else some (l, m)

/-- Embedding of the tail of `tokenize_document`: compute the missed
annotations (only when `strict_span_conversion` or `verbose` asks for them);
raise with the report in strict mode, log the report (when verbose) and
still return all produced documents otherwise. -/
def tokenize_document_check {α : Type} (layers : List String) (partitionLayer : Option String)
    (docAnns addedAnns : String → List Nat) (strict verbose : Bool) (produced : List α) :
    Except (List (String × List Nat)) (List α × List (String × List Nat)) :=
  let missed :=
    if strict || verbose then missed_annotations layers partitionLayer docAnns addedAnns else []
  if missed ≠ [] then
    if strict then .error missed
    else if verbose then .ok (produced, missed)
    else .ok (produced, [])
  else .ok (produced, [])

/-! ## `encode_target` (taskmodule, lines 762-782)

`encode_target` reads the tokenized document's layers, runs
`encode_annotations` (which may raise while encoding annotations to target
ids or while building constraints), and catches ANY exception, logging it
and returning `None`.  The fallible body is therefore a parameter: the claim
quantifies over whatever exception the target-encoding step raises. -/

/-- A task encoding as `encode_target` sees it: the tokenized document's
annotation layers (abstracted to ids) and the input length that goes into
the metadata as `src_len`. -/
structure TaskEncodingE where
  layers : List (String × List Nat)
  srcLen : Nat

/-- Embedding of `encode_target`: run the fallible target-encoding body on
the encoding's layers and `src_len`; return its result, or `none` instead of
propagating its exception. -/
def encode_target {T : Type} (encodeAnnotations : List (String × List Nat) → Nat → Except String T)
    (task : TaskEncodingE) : Option T :=
  match encodeAnnotations task.layers task.srcLen with
  | .ok result => some result
  | .error _ => none

/-! ## Helper lemmas about `strFind` -/

lemma strFindAux_some (text tok : List Char) :
    ∀ (fuel p q : Nat), strFindAux text tok p fuel = some q →
      p ≤ q ∧ q < p + fuel ∧ matchAt tok (text.drop q) = true ∧
        ∀ r, p ≤ r → r < q → matchAt tok (text.drop r) = false := by
  intro fuel
  induction fuel with
  | zero => intro p q h; simp [strFindAux] at h
  | succ n ih =>
    intro p q h
    by_cases hm : matchAt tok (text.drop p) = true
    · simp [strFindAux, hm] at h
      subst h
      exact ⟨le_refl _, by omega, hm, fun r h1 h2 => absurd h1 (by omega)⟩
    · simp [strFindAux, hm] at h
      obtain ⟨h1, h2, h3, h4⟩ := ih (p + 1) q h
      refine ⟨by omega, by omega, h3, fun r hr1 hr2 => ?_⟩
      rcases Nat.eq_or_lt_of_le hr1 with heq | hlt
      · subst heq; simpa using hm
      · exact h4 r hlt hr2

lemma strFindAux_none (text tok : List Char) :
    ∀ (fuel p : Nat), strFindAux text tok p fuel = none →
      ∀ r, p ≤ r → r < p + fuel → matchAt tok (text.drop r) = false := by
  intro fuel
  induction fuel with
  | zero => intro p _ r _ _; omega
  | succ n ih =>
    intro p h r hr1 hr2
    by_cases hm : matchAt tok (text.drop p) = true
    · simp [strFindAux, hm] at h
    · simp [strFindAux, hm] at h
      rcases Nat.eq_or_lt_of_le hr1 with heq | hlt
      · subst heq; simpa using hm
      · exact ih (p + 1) h r hlt (by omega)

lemma strFind_some {text tok : List Char} {start q : Nat}
    (h : strFind text tok start = some q) :
    start ≤ q ∧ occursAt text tok q ∧ ∀ r, start ≤ r → r < q → ¬ occursAt text tok r := by
  unfold strFind at h
  by_cases hs : start ≤ text.length
  · rw [if_pos hs] at h
    obtain ⟨h1, h2, h3, h4⟩ := strFindAux_some text tok _ _ _ h
    refine ⟨h1, ⟨by omega, h3⟩, fun r hr1 hr2 hocc => ?_⟩
    have h5 := hocc.2
    rw [h4 r hr1 hr2] at h5
    simp at h5
  · rw [if_neg hs] at h
    exact absurd h (by simp)

lemma strFind_none {text tok : List Char} {start : Nat}
    (h : strFind text tok start = none) :
    ∀ r, start ≤ r → ¬ occursAt text tok r := by
  intro r hr hocc
  obtain ⟨hocc1, hocc2⟩ := hocc
  unfold strFind at h
  by_cases hs : start ≤ text.length
  · rw [if_pos hs] at h
    have h5 := strFindAux_none text tok _ _ h r hr (by omega)
    rw [h5] at hocc2
    simp at hocc2
  · exact hs (le_trans hr hocc1)

/-! ## Claim theorems: offset mapper -/

/-- C6: `find_token_offset_mapping` scans tokens left to right with a cursor
starting at 0.  A token occurring at or after the cursor gets the entry
`(p, p + len(token))` for the first such occurrence `p` and moves the cursor
to `p + len(token)`; a token with no such occurrence gets the degenerate
entry `(cursor, cursor)` and leaves the cursor unchanged.  In particular the
example from the spec evaluates to `[(0,4),(5,7),(8,9),(10,15),(16,20)]`. -/
theorem C6_find_token_offset_mapping :
    (∀ (text : List Char) (start : Nat) (tok : List Char) (toks : List (List Char)),
      (∀ p, strFind text tok start = some p →
        start ≤ p ∧ occursAt text tok p ∧ (∀ q, start ≤ q → q < p → ¬ occursAt text tok q) ∧
          find_token_offset_mapping_go text start (tok :: toks) =
            (p, p + tok.length) :: find_token_offset_mapping_go text (p + tok.length) toks) ∧
      (strFind text tok start = none →
        (∀ q, start ≤ q → ¬ occursAt text tok q) ∧
          find_token_offset_mapping_go text start (tok :: toks) =
            (start, start) :: find_token_offset_mapping_go text start toks)) ∧
    find_token_offset_mapping "This is a dummy text about nothing."
        ["This", "is", "a", "dummy", "text"] =
      [(0, 4), (5, 7), (8, 9), (10, 15), (16, 20)] := by
  constructor
  · intro text start tok toks
    constructor
    · intro p hp
      obtain ⟨h1, h2, h3⟩ := strFind_some hp
      exact ⟨h1, h2, h3, by simp [find_token_offset_mapping_go, hp]⟩
    · intro hn
      exact ⟨strFind_none hn, by simp [find_token_offset_mapping_go, hn]⟩
  · rfl

/-- Witness for C6 at a concrete input: in the text `"ab"`, the token `"b"`
first occurs at position 1, so its offset entry is `(1, 2)`. -/
theorem C6_witness :
    find_token_offset_mapping_go "ab".data 0 ["b".data] = [(1, 2)] := by
  have h := ((C6_find_token_offset_mapping.1 "ab".data 0 "b".data []).1 1 (by rfl)).2.2.2
  rw [h]
  rfl

/-- C10: `char_span_to_token_span` decides success by the two endpoint
characters only: a simple span fails iff `char_to_token` is undefined at
`start` or at `end - 1`, and on success the result spans the tokens of the
two endpoint characters (interior characters are never consulted); a multi
span fails iff some slice fails that same endpoint test. -/
theorem C10_char_span_endpoints :
    ∀ (f : Nat → Option Nat) (s e : Nat) (lab : String),
      (char_span_to_token_span (.span ⟨s, e, lab⟩) f = none ↔
        f s = none ∨ f (e - 1) = none) ∧
      (∀ a b, f s = some a → f (e - 1) = some b →
        char_span_to_token_span (.span ⟨s, e, lab⟩) f = some (.span ⟨a, b + 1, lab⟩)) ∧
      (∀ slices : List (Nat × Nat),
        char_span_to_token_span (.multi ⟨slices, lab⟩) f = none ↔
          ∃ q ∈ slices, f q.1 = none ∨ f (q.2 - 1) = none) := by
  intro f s e lab
  refine ⟨?_, ?_, ?_⟩
  · cases h1 : f s <;> cases h2 : f (e - 1) <;>
      simp [char_span_to_token_span, h1, h2]
  · intro a b h1 h2
    simp [char_span_to_token_span, h1, h2]
  · intro slices
    simp only [char_span_to_token_span]
    split
    · rename_i h
      rw [List.any_eq_true] at h
      obtain ⟨x, hx, hxnone⟩ := h
      obtain ⟨q, hq, rfl⟩ := List.mem_map.mp hx
      refine ⟨fun _ => ⟨q, hq, ?_⟩, fun _ => rfl⟩
      simpa [Option.isNone_iff_eq_none] using hxnone
    · rename_i h
      rw [List.any_eq_true] at h
      push_neg at h
      constructor
      · intro hfalse; exact absurd hfalse (by simp)
      · rintro ⟨q, hq, hnone⟩
        have hx := h _ (List.mem_map_of_mem _ hq)
        rcases hnone with h1 | h1 <;> simp [h1] at hx

/-- Witness for C10 at a concrete input: with the offset mapping
`[(0,1),(2,3)]`, character 1 is unmapped, yet the span `[0,3)` (whose
interior contains character 1) still converts, to the token span `[0,2)`. -/
theorem C10_witness :
    char_span_to_token_span (.span ⟨0, 3, "g"⟩) (char_to_token_from_mapping [(0, 1), (2, 3)]) =
        some (.span ⟨0, 2, "g"⟩) ∧
      char_to_token_from_mapping [(0, 1), (2, 3)] 1 = none := by
  refine ⟨?_, rfl⟩
  have h := (C10_char_span_endpoints (char_to_token_from_mapping [(0, 1), (2, 3)]) 0 3 "g").2.1
  exact h 0 1 rfl rfl

/-- C5 fails as stated: with the offset mapping `[(0,4)]` (one token covering
characters 0-3) every character of the span `[1,3)` is mapped, but the
round trip `charSpan → tokenSpan → charSpan` widens the span to the token
boundaries `[0,4)` instead of reproducing `[1,3)`. -/
theorem C5_roundtrip_counterexample :
    (char_to_token_from_mapping [(0, 4)] 1).isSome = true ∧
      (char_to_token_from_mapping [(0, 4)] 2).isSome = true ∧
      (char_span_to_token_span (.span ⟨1, 3, "x"⟩) (char_to_token_from_mapping [(0, 4)])).bind
          (fun t => token_span_to_char_span t [(0, 4)]) =
        some (.span ⟨0, 4, "x"⟩) ∧
      Ann.span ⟨0, 4, "x"⟩ ≠ Ann.span ⟨1, 3, "x"⟩ := by
  exact ⟨rfl, rfl, rfl, by decide⟩

/-- C5 (amended): the round trip through a consistent offset mapping
reproduces the original character boundaries whenever every character of the
span is mapped AND the span's boundaries are token-aligned: its start is the
first character of the token containing it and its end is one past the last
character of the token containing `end - 1`. -/
theorem C5_roundtrip_amended :
    ∀ (m : List (Nat × Nat)) (s e : Nat) (lab : String) (i j : Nat),
      s < e →
      (∀ c, c < e → s ≤ c → (char_to_token_from_mapping m c).isSome) →
      char_to_token_from_mapping m s = some i →
      char_to_token_from_mapping m (e - 1) = some j →
      (m.get? i).map Prod.fst = some s →
      (m.get? j).map Prod.snd = some e →
      (char_span_to_token_span (.span ⟨s, e, lab⟩) (char_to_token_from_mapping m)).bind
          (fun t => token_span_to_char_span t m) =
        some (.span ⟨s, e, lab⟩) := by
  intro m s e lab i j _ _ hs he hstart hend
  obtain ⟨p1, hp1, hp1s⟩ : ∃ p, m.get? i = some p ∧ p.1 = s := by
    cases hg : m.get? i with
    | none => rw [hg] at hstart; simp at hstart
    | some p => rw [hg] at hstart; simp at hstart; exact ⟨p, rfl, hstart⟩
  obtain ⟨p2, hp2, hp2e⟩ : ∃ p, m.get? j = some p ∧ p.2 = e := by
    cases hg : m.get? j with
    | none => rw [hg] at hend; simp at hend
    | some p => rw [hg] at hend; simp at hend; exact ⟨p, rfl, hend⟩
  have hp1' : m[i]? = some p1 := by rw [← List.get?_eq_getElem?]; exact hp1
  have hp2' : m[j]? = some p2 := by rw [← List.get?_eq_getElem?]; exact hp2
  simp [char_span_to_token_span, hs, he, token_span_to_char_span, hp1', hp2', hp1s, hp2e]

/-- Witness for C5 (amended) at a concrete input: with the mapping
`[(0,2),(2,4)]` the token-aligned span `[0,4)` survives the round trip. -/
theorem C5_witness :
    (char_span_to_token_span (.span ⟨0, 4, "y"⟩) (char_to_token_from_mapping [(0, 2), (2, 4)])).bind
        (fun t => token_span_to_char_span t [(0, 2), (2, 4)]) =
      some (.span ⟨0, 4, "y"⟩) :=
  C5_roundtrip_amended [(0, 2), (2, 4)] 0 4 "y" 0 1 (by decide) (by decide) rfl rfl rfl rfl

/-! ## Claim theorems: `decode_relations` -/

lemma decode_relations_fold (cfg : Vocab) :
    ∀ (ids : List Nat) (encodings : List DecodedRelation) (errs : List String) (cur : List Nat),
      List.foldl (decodeRelationsStep cfg) (encodings, errs, cur) ids =
        (encodings ++
            ((splitTuplesGo cfg cur ids).1.filterMap fun t => (decodeRelation cfg t).toOption),
          errs ++ (splitTuplesGo cfg cur ids).1.map (decodeOutcome cfg),
          (splitTuplesGo cfg cur ids).2) := by
  intro ids
  induction ids with
  | nil => intro encodings errs cur; simp [splitTuplesGo]
  | cons i rest ih =>
    intro encodings errs cur
    rw [List.foldl_cons]
    by_cases hc : tupleComplete cfg (cur ++ [i]) i
    · cases hd : decodeRelation cfg (cur ++ [i]) with
      | ok r =>
        rw [show decodeRelationsStep cfg (encodings, errs, cur) i =
            (encodings ++ [r], errs ++ ["correct"], []) by
          simp [decodeRelationsStep, hc, hd]]
        rw [ih]
        simp [splitTuplesGo, hc, hd, decodeOutcome, Except.toOption]
      | error e =>
        rw [show decodeRelationsStep cfg (encodings, errs, cur) i =
            (encodings, errs ++ [e], []) by
          simp [decodeRelationsStep, hc, hd]]
        rw [ih]
        simp [splitTuplesGo, hc, hd, decodeOutcome, Except.toOption]
    · rw [show decodeRelationsStep cfg (encodings, errs, cur) i =
          (encodings, errs, cur ++ [i]) by
        simp [decodeRelationsStep, hc]]
      rw [ih]
      simp [splitTuplesGo, hc]

lemma count_map_eq_countP {α β : Type} [DecidableEq β] (f : α → β) (l : List α) (b : β) :
    (l.map f).count b = l.countP fun a => f a == b := by
  induction l with
  | nil => simp
  | cons a as ih => simp [List.count_cons, List.countP_cons, ih]

/-- C1: `decode_relations` is total and degrades gracefully: on any id
stream it returns exactly the successfully decoded relations of the
completed tuples (in order, so tuples decoding fine before or after a
malformed tuple are still returned), a per-tuple outcome trace whose counts
are the error counts (each tuple that fails to decode is counted under its
error kind and contributes no relation), and the ids accumulated after the
last completed tuple as the leftover list. -/
theorem C1_decode_relations_graceful (cfg : Vocab) (labelIds : List Nat) :
    decode_relations cfg labelIds =
      ((splitTuples cfg labelIds).1.filterMap (fun t => (decodeRelation cfg t).toOption),
        (splitTuples cfg labelIds).1.map (decodeOutcome cfg),
        (splitTuples cfg labelIds).2) ∧
    ∀ k : String, (decode_relations cfg labelIds).2.1.count k =
      (splitTuples cfg labelIds).1.countP fun t => decodeOutcome cfg t == k := by
  have h := decode_relations_fold cfg labelIds [] [] []
  refine ⟨by simpa [decode_relations, splitTuples] using h, fun k => ?_⟩
  have h2 : (decode_relations cfg labelIds).2.1 =
      (splitTuples cfg labelIds).1.map (decodeOutcome cfg) := by
    simpa [decode_relations, splitTuples] using congrArg (fun st => st.2.1) h
  rw [h2, count_map_eq_countP]

/-- C2: in `decode_relations`, after any already-processed stream the next id
`i` completes the accumulated tuple (triggering one decode attempt and a
reset of the accumulator) exactly when `i` is a known relation-label id or
`i` is the none id and the accumulator has reached length 7; any other id
only extends the accumulator and changes neither the decoded relations nor
the recorded outcomes. -/
theorem C2_tuple_completion (cfg : Vocab) (ids : List Nat) (i : Nat) :
    decode_relations cfg (ids ++ [i]) =
      if i ∈ cfg.relationIds ∨
          (i = cfg.noneId ∧ ((decode_relations cfg ids).2.2 ++ [i]).length = 7) then
        match decodeRelation cfg ((decode_relations cfg ids).2.2 ++ [i]) with
        | .ok r =>
          ((decode_relations cfg ids).1 ++ [r],
            (decode_relations cfg ids).2.1 ++ ["correct"], [])
        | .error e =>
          ((decode_relations cfg ids).1, (decode_relations cfg ids).2.1 ++ [e], [])
      else
        ((decode_relations cfg ids).1, (decode_relations cfg ids).2.1,
          (decode_relations cfg ids).2.2 ++ [i]) := by
  have hstep : decode_relations cfg (ids ++ [i]) =
      decodeRelationsStep cfg (decode_relations cfg ids) i := by
    unfold decode_relations
    rw [List.foldl_append, List.foldl_cons, List.foldl_nil]
  rw [hstep]
  generalize decode_relations cfg ids = st
  obtain ⟨encodings, errs, cur⟩ := st
  simp only [decodeRelationsStep, tupleComplete]

/-! ## Claim theorems: constraint builder -/

lemma get?_range_map {γ : Type} (f : Nat → γ) (n j : Nat) :
    ((List.range n).map f).get? j = if j < n then some (f j) else none := by
  rw [List.get?_map]
  by_cases hj : j < n
  · rw [List.get?_range hj, if_pos hj]; rfl
  · have hnone : (List.range n).get? j = none := by
      rw [List.get?_eq_none]; simpa using hj
    rw [hnone, if_neg hj]; rfl

lemma buildConstraintFn_cases (cfg : Vocab) (prev : List Nat) (j : Nat) :
    buildConstraintFn cfg prev j = 0 ∨ buildConstraintFn cfg prev j = 1 := by
  unfold buildConstraintFn
  split_ifs <;> simp

lemma mapME_ok {α β ε : Type} (f : α → Except ε β) :
    ∀ (l : List α) (bs : List β), mapME f l = .ok bs →
      bs.length = l.length ∧
        ∀ i (h : i < l.length), ∃ b, f (l.get ⟨i, h⟩) = .ok b ∧ bs.get? i = some b := by
  intro l
  induction l with
  | nil =>
    intro bs h
    simp [mapME] at h
    subst h
    exact ⟨rfl, fun i hi => absurd hi (by simp)⟩
  | cons a as ih =>
    intro bs h
    unfold mapME at h
    cases hfa : f a with
    | error e => rw [hfa] at h; simp at h
    | ok b =>
      rw [hfa] at h
      cases hm : mapME f as with
      | error e => rw [hm] at h; simp at h
      | ok bs' =>
        rw [hm] at h
        have hbs : bs = b :: bs' := by simpa using h.symm
        subst hbs
        obtain ⟨hlen, hpt⟩ := ih bs' hm
        refine ⟨by simp [hlen], fun i hi => ?_⟩
        cases i with
        | zero => exact ⟨b, hfa, rfl⟩
        | succ i' =>
          obtain ⟨b', hb1, hb2⟩ := hpt i' (by simpa using hi)
          exact ⟨b', hb1, hb2⟩

lemma buildConstraintsEntry_ok {cfg : Vocab} {inputLen : Nat} {targetIds : List Nat} {idx : Nat}
    {b : List Nat} (h : buildConstraintsEntry cfg inputLen targetIds idx = .ok b) :
    b = _build_constraint cfg ((targetIds.take idx).drop (idx / 7 * 7)) inputLen ∧
      b.get? (targetIds.getD idx 0) = some 1 := by
  unfold buildConstraintsEntry at h
  cases hg : (_build_constraint cfg ((targetIds.take idx).drop (idx / 7 * 7)) inputLen).get?
      (targetIds.getD idx 0) with
  | none => rw [hg] at h; simp at h
  | some v =>
    rw [hg] at h
    dsimp only at h
    by_cases hv : v = 0
    · rw [if_pos hv] at h; simp at h
    · rw [if_neg hv] at h
      have hb : b = _build_constraint cfg ((targetIds.take idx).drop (idx / 7 * 7)) inputLen := by
        simpa using h.symm
      subst hb
      refine ⟨rfl, ?_⟩
      rw [hg]
      have hg' := hg
      unfold _build_constraint at hg'
      rw [get?_range_map] at hg'
      by_cases hc : targetIds.getD idx 0 < inputLen + cfg.pointerOffset
      · rw [if_pos hc] at hg'
        have hfv : buildConstraintFn cfg ((targetIds.take idx).drop (idx / 7 * 7))
            (targetIds.getD idx 0) = v := by simpa using hg'
        rcases buildConstraintFn_cases cfg ((targetIds.take idx).drop (idx / 7 * 7))
            (targetIds.getD idx 0) with h0 | h1
        · exact absurd (by rw [← hfv, h0]) (Ne.symm hv)
        · rw [hfv] at h1; rw [h1]
      · rw [if_neg hc] at hg'; simp at hg'

/-- C3: when `build_constraints(input_len, target_ids)` returns, `target_ids`
ends with the eos id and its length minus the terminator is a multiple of 7
(it raises otherwise); the result has one row per element of `target_ids`;
row `i` (for the non-terminator positions) is computed by
`_build_constraint` from only the same-tuple prefix
`target_ids[(i // 7) * 7 : i]`; every row has value 1 at the id actually
chosen at its position; and the final row allows exactly the eos id. -/
theorem C3_build_constraints (cfg : Vocab) (inputLen : Nat) (targetIds : List Nat)
    (rows : List (List Nat)) (hwf : cfg.eosId < cfg.pointerOffset)
    (h : build_constraints cfg inputLen targetIds = .ok rows) :
    (targetIds ≠ [] ∧ targetIds.getLast? = some cfg.eosId ∧
        (targetIds.length - 1) % 7 = 0) ∧
      rows.length = targetIds.length ∧
      (∀ i, i < targetIds.length - 1 →
        rows.get? i =
          some (_build_constraint cfg ((targetIds.take i).drop (i / 7 * 7)) inputLen)) ∧
      (∀ i, i < targetIds.length →
        ∃ row, rows.get? i = some row ∧ row.get? (targetIds.getD i 0) = some 1) ∧
      (∀ j, j < inputLen + cfg.pointerOffset →
        ((rows.getD (targetIds.length - 1) []).get? j = some 1 ↔ j = cfg.eosId)) := by
  unfold build_constraints at h
  cases hlast : targetIds.getLast? with
  | none => rw [hlast] at h; simp at h
  | some last =>
    rw [hlast] at h
    dsimp only at h
    by_cases h1 : last = cfg.eosId
    · subst h1
      rw [if_neg (not_not_intro rfl)] at h
      by_cases h2 : (targetIds.length - 1) % 7 = 0
      · rw [if_neg (not_not_intro h2)] at h
        cases hm : mapME (buildConstraintsEntry cfg inputLen targetIds)
            (List.range (targetIds.length - 1)) with
        | error e => rw [hm] at h; simp at h
        | ok rows' =>
          rw [hm] at h
          dsimp only at h
          have hrows : rows = rows' ++ [eosConstraintRow cfg inputLen] := by
            simpa using h.symm
          subst hrows
          have hne : targetIds ≠ [] := by
            intro hh; rw [hh] at hlast; simp at hlast
          have hpos : 0 < targetIds.length := List.length_pos.mpr hne
          obtain ⟨hlen', hpt⟩ := mapME_ok _ _ _ hm
          rw [List.length_range] at hlen'
          have htd : targetIds.getD (targetIds.length - 1) 0 = cfg.eosId := by
            have hq := List.getLast?_eq_get? targetIds
            rw [hlast] at hq
            rw [List.getD_eq_get?, ← hq]
            simp
          refine ⟨⟨hne, rfl, h2⟩, by simp [hlen']; omega, ?_, ?_, ?_⟩
          · intro i hi
            rw [List.get?_append (by omega)]
            obtain ⟨b, hb1, hb2⟩ := hpt i (by simpa using hi)
            rw [List.get_range] at hb1
            obtain ⟨hb, _⟩ := buildConstraintsEntry_ok hb1
            rw [hb2, hb]
          · intro i hi
            by_cases hi' : i < targetIds.length - 1
            · rw [List.get?_append (by omega)]
              obtain ⟨b, hb1, hb2⟩ := hpt i (by simpa using hi')
              rw [List.get_range] at hb1
              obtain ⟨_, hval⟩ := buildConstraintsEntry_ok hb1
              exact ⟨b, hb2, hval⟩
            · have hieq : i = targetIds.length - 1 := by omega
              subst hieq
              rw [List.get?_append_right (by omega)]
              have hz : targetIds.length - 1 - rows'.length = 0 := by omega
              rw [hz]
              refine ⟨eosConstraintRow cfg inputLen, rfl, ?_⟩
              rw [htd]
              unfold eosConstraintRow
              rw [get?_range_map, if_pos (by omega)]
              simp
          · intro j hj
            have hgl : (rows' ++ [eosConstraintRow cfg inputLen]).getD
                (targetIds.length - 1) [] = eosConstraintRow cfg inputLen := by
              rw [List.getD_eq_get?, List.get?_append_right (by omega)]
              have hz : targetIds.length - 1 - rows'.length = 0 := by omega
              rw [hz]; rfl
            rw [hgl]
            unfold eosConstraintRow
            rw [get?_range_map, if_pos hj]
            constructor
            · intro he
              by_contra hne'
              rw [if_neg hne'] at he
              simp at he
            · intro he; rw [if_pos he]
      · rw [if_pos h2] at h; simp at h
    · rw [if_pos h1] at h; simp at h

/-- The constraint matrix that `build_constraints` produces on the fixture
input (extracted from its `Except` result). -/
def fixtureRows : List (List Nat) :=
  (build_constraints fixtureVocab 13
    [14, 14, 5, 11, 12, 3, 6, 17, 17, 4, 2, 2, 2, 2, 1]).toOption.getD []

/-- Witness for C3: on the fixture vocabulary with `input_len = 13` and the
fixture target sequence, `build_constraints` succeeds with 15 rows and the
checked properties hold. -/
theorem C3_witness :
    fixtureVocab.eosId < fixtureVocab.pointerOffset ∧
      build_constraints fixtureVocab 13 [14, 14, 5, 11, 12, 3, 6, 17, 17, 4, 2, 2, 2, 2, 1] =
        .ok fixtureRows ∧
      fixtureRows.length = 15 := by
  have hr : build_constraints fixtureVocab 13 [14, 14, 5, 11, 12, 3, 6, 17, 17, 4, 2, 2, 2, 2, 1] =
      .ok fixtureRows := by rfl
  have h := C3_build_constraints fixtureVocab 13 _ fixtureRows (by decide) hr
  exact ⟨by decide, hr, by rw [h.2.1]; rfl⟩

lemma buildConstraintFn_len4 (cfg : Vocab) (fs fe lab ss j : Nat)
    (heos : cfg.eosId ∉ [fs, fe, lab, ss]) :
    buildConstraintFn cfg [fs, fe, lab, ss] j =
      if cfg.noneId ∈ [fs, fe, lab, ss] then (if j = cfg.noneId then 1 else 0)
      else if ss < fs ∧ fe + 1 ≤ j then 0
      else if fs ≤ j ∧ j < fe + 1 then 0
      else if ss ≤ j then 1
      else 0 := by
  unfold buildConstraintFn
  rw [if_neg heos]
  simp [List.getD, List.getLastD]

/-- C4: for a tuple prefix `[first_start, first_end, first_label,
second_start]` of length 4 that does not contain the end-of-sequence id,
`_build_constraint` allows only the none id when the none id occurs in the
prefix; otherwise it allows exactly the mask positions at or after the
second span start, minus the positions in the first span's inclusive range
`[first_start, first_end]`, and when the first span's start is greater than
the second span's start it additionally disallows every position after the
first span's end. -/
theorem C4_build_constraint_step4 (cfg : Vocab) (fs fe lab ss inputLen : Nat)
    (heos : cfg.eosId ∉ [fs, fe, lab, ss]) :
    (cfg.noneId ∈ [fs, fe, lab, ss] → cfg.noneId < inputLen + cfg.pointerOffset →
      ∀ j, j < inputLen + cfg.pointerOffset →
        ((_build_constraint cfg [fs, fe, lab, ss] inputLen).get? j = some 1 ↔
          j = cfg.noneId)) ∧
    (cfg.noneId ∉ [fs, fe, lab, ss] →
      ∀ j, j < inputLen + cfg.pointerOffset →
        ((_build_constraint cfg [fs, fe, lab, ss] inputLen).get? j = some 1 ↔
          (ss ≤ j ∧ ¬(fs ≤ j ∧ j ≤ fe) ∧ (ss < fs → j ≤ fe)))) := by
  have hrow : ∀ j, j < inputLen + cfg.pointerOffset →
      (_build_constraint cfg [fs, fe, lab, ss] inputLen).get? j =
        some (buildConstraintFn cfg [fs, fe, lab, ss] j) := by
    intro j hj
    unfold _build_constraint
    rw [get?_range_map, if_pos hj]
  constructor
  · intro hnone _ j hj
    rw [hrow j hj, buildConstraintFn_len4 cfg fs fe lab ss j heos, if_pos hnone]
    split_ifs with h <;> simp [h]
  · intro hnone j hj
    rw [hrow j hj, buildConstraintFn_len4 cfg fs fe lab ss j heos, if_neg hnone]
    split_ifs with h1 h2 h3 <;> simp <;> omega

/-- Witness for C4 at a concrete input: for the fixture prefix
`[14, 14, 5, 11]` with `input_len = 13`, position 12 is allowed (it is at or
after the second span start 11 and outside the first span `[14, 14]`) while
position 14 (inside the first span) is not. -/
theorem C4_witness :
    (_build_constraint fixtureVocab [14, 14, 5, 11] 13).get? 12 = some 1 ∧
      (_build_constraint fixtureVocab [14, 14, 5, 11] 13).get? 14 ≠ some 1 := by
  have h := (C4_build_constraint_step4 fixtureVocab 14 14 5 11 13 (by decide)).2 (by decide)
  constructor
  · exact (h 12 (by decide)).mpr (by omega)
  · intro hc
    have := (h 14 (by decide)).mp hc
    omega

/-! ## Claim theorems: padding id versus eos id -/

lemma snd_mem_of_mem_enumFrom {α : Type} :
    ∀ (l : List α) (n : Nat) (x : Nat × α), x ∈ List.enumFrom n l → x.2 ∈ l := by
  intro l
  induction l with
  | nil => intro n x hx; simp [List.enumFrom] at hx
  | cons a as ih =>
    intro n x hx
    rw [List.enumFrom] at hx
    rcases List.mem_cons.mp hx with h | h
    · subst h; exact List.mem_cons_self _ _
    · exact List.mem_cons_of_mem _ (ih (n + 1) x h)

/-- C9 fails as stated: the code checks label uniqueness but not disjointness
of labels from the special tokens, so with the label list
`["none", "</s>"]` the eos id (the last index of `"</s>"` in the target
vocabulary, namely 3) differs from `target_pad_id` (its index among the two
special targets, namely 1). -/
theorem C9_pad_eos_counterexample :
    target_pad_id "<s>" "</s>" = some 1 ∧
      eos_id_of "<s>" "</s>" ["none", "</s>"] = some 3 ∧
      target_pad_id "<s>" "</s>" ≠ eos_id_of "<s>" "</s>" ["none", "</s>"] := by
  refine ⟨rfl, rfl, by decide⟩

/-- C9 (amended): provided no label string equals the eos token (labels and
special tokens disjoint, the intended configuration), `target_pad_id` and
`eos_id` agree: both are the index of the eos token in the target
vocabulary (namely 1), and the padding value used for batched label
sequences is that same id; moreover every constraint row built after eos has
appeared, or for a prefix of length at least 7, allows exactly the padding
id — hence, under the proviso, exactly the eos id. -/
theorem C9_pad_eos_amended :
    (∀ (bos eos : String) (labels : List String), eos ∉ labels →
      target_pad_id bos eos = some 1 ∧ eos_id_of bos eos labels = some 1 ∧
        labels_pad_value bos eos = eos_id_of bos eos labels) ∧
    (∀ (cfg : Vocab) (previousIds : List Nat) (inputLen j : Nat),
      j < inputLen + cfg.pointerOffset →
      (cfg.eosId ∈ previousIds ∨ 7 ≤ previousIds.length) →
      ((_build_constraint cfg previousIds inputLen).get? j = some 1 ↔
        j = cfg.targetPadId)) := by
  constructor
  · intro bos eos labels hnotin
    have hpad : target_pad_id bos eos = some 1 := by
      unfold target_pad_id dictIndexOf special_targets
      have henum : List.enum [bos, eos] = [(0, bos), (1, eos)] := by
        simp [List.enum, List.enumFrom]
      rw [henum, show ([(0, bos), (1, eos)] : List (Nat × String)).reverse =
        [(1, eos), (0, bos)] from by simp]
      rw [List.find?_cons_of_pos _ (by simp)]
      rfl
    have heos : eos_id_of bos eos labels = some 1 := by
      unfold eos_id_of dictIndexOf targetsList special_targets
      have henum : List.enum ([bos, eos] ++ labels) =
          (0, bos) :: (1, eos) :: List.enumFrom 2 labels := by
        simp [List.enum, List.enumFrom]
      rw [henum]
      rw [List.reverse_cons, List.reverse_cons]
      rw [List.find?_append, List.find?_append]
      have hnone : (List.enumFrom 2 labels).reverse.find? (fun q => q.2 == eos) = none := by
        rw [List.find?_eq_none]
        intro x hx
        have hx2 : x.2 ∈ labels := snd_mem_of_mem_enumFrom _ _ _ (List.mem_reverse.mp hx)
        simp only [beq_iff_eq]
        intro heq
        exact hnotin (heq ▸ hx2)
      rw [hnone]
      simp
    exact ⟨hpad, heos, by rw [labels_pad_value, hpad, heos]⟩
  · intro cfg previousIds inputLen j hj hcond
    have hrow : (_build_constraint cfg previousIds inputLen).get? j =
        some (buildConstraintFn cfg previousIds j) := by
      unfold _build_constraint
      rw [get?_range_map, if_pos hj]
    rw [hrow]
    unfold buildConstraintFn
    rcases hcond with hin | hlen
    · rw [if_pos hin]
      split_ifs with h <;> simp [h]
    · by_cases hin : cfg.eosId ∈ previousIds
      · rw [if_pos hin]
        split_ifs with h <;> simp [h]
      · rw [if_neg hin, if_neg (by omega : ¬previousIds.length = 0),
          if_neg (by omega : ¬previousIds.length = 1),
          if_neg (by omega : ¬previousIds.length = 2),
          if_neg (by omega : ¬previousIds.length = 3),
          if_neg (by omega : ¬previousIds.length = 4),
          if_neg (by omega : ¬previousIds.length = 5),
          if_neg (by omega : ¬previousIds.length = 6)]
        split_ifs with h <;> simp [h]

/-- Witness for C9 (amended) at a concrete input: for the fixture tokenizer
specials and labels, both ids are 1, and after eos the fixture constraint
row allows exactly id 1. -/
theorem C9_witness :
    (target_pad_id "<s>" "</s>" = some 1 ∧
        eos_id_of "<s>" "</s>" ["none", "content", "person", "topic", "is_about"] = some 1 ∧
        labels_pad_value "<s>" "</s>" =
          eos_id_of "<s>" "</s>" ["none", "content", "person", "topic", "is_about"]) ∧
      ((_build_constraint fixtureVocab [14, 14, 5, 11, 12, 3, 6, 1] 13).get? 1 = some 1 ↔
        (1 : Nat) = fixtureVocab.targetPadId) := by
  constructor
  · exact C9_pad_eos_amended.1 "<s>" "</s>" ["none", "content", "person", "topic", "is_about"]
      (by decide)
  · exact C9_pad_eos_amended.2 fixtureVocab [14, 14, 5, 11, 12, 3, 6, 1] 13 1 (by decide)
      (Or.inl (by decide))

/-! ## Claim theorems: coverage check of `tokenize_document` -/

lemma missed_annotations_ne_nil_iff (layers : List String) (partitionLayer : Option String)
    (docAnns addedAnns : String → List Nat) :
    missed_annotations layers partitionLayer docAnns addedAnns ≠ [] ↔
      ∃ l ∈ layers, partitionLayer ≠ some l ∧ ∃ a ∈ docAnns l, a ∉ addedAnns l := by
  unfold missed_annotations
  rw [Ne, List.filterMap_eq_nil]
  push_neg
  constructor
  · rintro ⟨l, hl, hf⟩
    have hl' := List.mem_filter.mp hl
    refine ⟨l, hl'.1, by simpa using hl'.2, ?_⟩
    by_cases hd : ((docAnns l).filter fun a => a ∉ addedAnns l).dedup = []
    · rw [if_pos hd] at hf; exact absurd rfl hf
    · have hne : (docAnns l).filter (fun a => a ∉ addedAnns l) ≠ [] := by
        intro hh; rw [hh] at hd; simp at hd
      rw [Ne, List.filter_eq_nil] at hne
      push_neg at hne
      obtain ⟨a, ha, hpa⟩ := hne
      exact ⟨a, ha, by simpa using hpa⟩
  · rintro ⟨l, hl, hpl, a, ha, hna⟩
    refine ⟨l, List.mem_filter.mpr ⟨hl, by simpa using hpl⟩, ?_⟩
    have hfil : a ∈ (docAnns l).filter fun a => a ∉ addedAnns l :=
      List.mem_filter.mpr ⟨ha, by simpa using hna⟩
    have hd : ((docAnns l).filter fun a => a ∉ addedAnns l).dedup ≠ [] := by
      intro hh
      rw [List.dedup_eq_nil] at hh
      rw [hh] at hfil
      simp at hfil
    rw [if_neg hd]
    simp

/-- C7: after all partitions are processed, `tokenize_document` compares, for
every annotation layer of the result document type except the partition
layer, the source document's annotations against those carried over; when
some layer has a non-empty gap it raises carrying the per-layer report if
`strict_span_conversion` is true, and otherwise only logs that same report
(when `verbose`) and still returns all produced token documents; with no gap
it returns all produced documents silently. -/
theorem C7_tokenize_document_coverage {α : Type} (layers : List String)
    (partitionLayer : Option String) (docAnns addedAnns : String → List Nat)
    (strict verbose : Bool) (produced : List α) :
    ((∃ e, tokenize_document_check layers partitionLayer docAnns addedAnns strict verbose
          produced = .error e) ↔
        (strict = true ∧
          ∃ l ∈ layers, partitionLayer ≠ some l ∧ ∃ a ∈ docAnns l, a ∉ addedAnns l)) ∧
      (∀ e, tokenize_document_check layers partitionLayer docAnns addedAnns strict verbose
          produced = .error e →
        e = missed_annotations layers partitionLayer docAnns addedAnns) ∧
      (∀ docs warns, tokenize_document_check layers partitionLayer docAnns addedAnns strict
          verbose produced = .ok (docs, warns) →
        docs = produced ∧
          warns = if verbose = true ∧
              missed_annotations layers partitionLayer docAnns addedAnns ≠ [] then
              missed_annotations layers partitionLayer docAnns addedAnns
            else []) := by
  have hiff := missed_annotations_ne_nil_iff layers partitionLayer docAnns addedAnns
  by_cases hm : missed_annotations layers partitionLayer docAnns addedAnns = []
  · have hng : ¬ ∃ l ∈ layers, partitionLayer ≠ some l ∧ ∃ a ∈ docAnns l, a ∉ addedAnns l := by
      rw [← hiff]; simp [hm]
    cases strict <;> cases verbose <;> simp [tokenize_document_check, hm, hng]
  · have hg := hiff.mp hm
    cases strict <;> cases verbose <;> simp [tokenize_document_check, hm, hg]

/-- Witness for C7 at a concrete input: one layer `"labeled_spans"` whose
annotation `5` was not carried over.  In strict mode the check raises with
exactly the per-layer report; in lenient verbose mode it returns the
produced document together with that same report as the logged warning. -/
theorem C7_witness :
    ([("labeled_spans", [5])] : List (String × List Nat)) =
        missed_annotations ["labeled_spans"] none
          (fun l => if l = "labeled_spans" then [5] else []) (fun _ => []) ∧
      ([()] : List Unit) = [()] ∧
      ([("labeled_spans", [5])] : List (String × List Nat)) =
        (if True ∧ missed_annotations ["labeled_spans"] none
              (fun l => if l = "labeled_spans" then [5] else []) (fun _ => []) ≠ [] then
            missed_annotations ["labeled_spans"] none
              (fun l => if l = "labeled_spans" then [5] else []) (fun _ => [])
          else []) := by
  have herr := (C7_tokenize_document_coverage ["labeled_spans"] none
      (fun l => if l = "labeled_spans" then [5] else []) (fun _ => []) true true
      ([()] : List Unit)).2.1 [("labeled_spans", [5])] (by rfl)
  have hok := (C7_tokenize_document_coverage ["labeled_spans"] none
      (fun l => if l = "labeled_spans" then [5] else []) (fun _ => []) false true
      ([()] : List Unit)).2.2 [()] [("labeled_spans", [5])] (by rfl)
  exact ⟨herr, hok.1.symm, by simpa using hok.2⟩

/-! ## Claim theorems: `encode_target` -/

/-- C8: `encode_target` never propagates a failure of the target-encoding
body: mapping it over a batch always yields one entry per task encoding,
each entry depends only on its own task's encoding result (`some` of the
encoded target on success, `none` on any raised error), so one failing
document never aborts processing of the others. -/
theorem C8_encode_target_catches {T : Type}
    (encodeAnnotations : List (String × List Nat) → Nat → Except String T)
    (tasks : List TaskEncodingE) :
    (tasks.map (encode_target encodeAnnotations)).length = tasks.length ∧
      (∀ i, (h : i < tasks.length) →
        (tasks.map (encode_target encodeAnnotations)).get? i =
          some (match encodeAnnotations (tasks.get ⟨i, h⟩).layers (tasks.get ⟨i, h⟩).srcLen with
            | .ok r => some r
            | .error _ => none)) ∧
      (∀ task r, encodeAnnotations task.layers task.srcLen = .ok r →
        encode_target encodeAnnotations task = some r) ∧
      (∀ task msg, encodeAnnotations task.layers task.srcLen = .error msg →
        encode_target encodeAnnotations task = none) := by
  refine ⟨by simp, ?_, ?_, ?_⟩
  · intro i h
    rw [List.get?_map, List.get?_eq_get h]
    rfl
  · intro task r hok
    unfold encode_target
    rw [hok]
  · intro task msg herr
    unfold encode_target
    rw [herr]

/-- A concrete fallible target-encoding body for the C8 witness: raises on
an empty layer dictionary, succeeds otherwise. -/
def failingEncodeAnnotations : List (String × List Nat) → Nat → Except String Nat :=
  fun layers _ => if layers = [] then .error "failed to encode target" else .ok 7

/-- Witness for C8 at a concrete input: the failing encoding yields `none`,
the succeeding one keeps its result. -/
theorem C8_witness :
    encode_target failingEncodeAnnotations ⟨[], 3⟩ = none ∧
      encode_target failingEncodeAnnotations ⟨[("labeled_spans", [1])], 3⟩ = some 7 := by
  constructor
  · exact (C8_encode_target_catches failingEncodeAnnotations []).2.2.2 ⟨[], 3⟩
      "failed to encode target" rfl
  · exact (C8_encode_target_catches failingEncodeAnnotations []).2.2.1
      ⟨[("labeled_spans", [1])], 3⟩ 7 (by simp [failingEncodeAnnotations])

end PM
